import Mathlib

/-!
Verification of `scripts/check_i18n.py`, a one-shot i18n key checker.

The script scans a source tree for `.tr("KEY")`-style calls with the regex
`\.tr\s*\(\s*["']([^"']+)["']\s*\)`, collects the set of used keys, and
compares it against the top-level keys of each JSON localization file,
printing missing and orphan keys.

The embedding below models file contents as explicit inputs: a source file
is a path together with the result of reading it (content or an error
message), a localization file is a name together with the result of parsing
it (its top-level key list or an error message).  Output is the list of
strings passed to `print`, in order.
-/

/-- The character class `["']` of the key pattern. -/
def isQuote (c : Char) : Bool := c == '"' || c == '\''

/-- The character class `\s` of Python regexes, restricted to its ASCII
members (space, tab, newline, carriage return, vertical tab, form feed). -/
def pyIsSpace (c : Char) : Bool :=
  c == ' ' || c == '\t' || c == '\n' || c == '\r' || c == '\x0b' || c == '\x0c'

/-- Greedy consumption of `\s*`: drop the maximal whitespace run.  Because
every element the pattern places after a `\s*` (namely `(`, a quote, or `)`)
is itself non-whitespace, the greedy run never needs to backtrack, so this
is faithful to the regex engine. -/
def dropWs : List Char → List Char
  | [] => []
  | c :: cs => if pyIsSpace c then dropWs cs else c :: cs

/-- Greedy consumption of `[^"']*`: the maximal run of non-quote characters,
together with the rest of the input.  The element after `[^"']+` in the
pattern is `["']`, and any truncation of the maximal run ends at a non-quote
character, so greediness without backtracking is again faithful. -/
def takeKey : List Char → List Char × List Char
  | [] => ([], [])
  | c :: cs =>
    if isQuote c then ([], c :: cs)
    else ((c :: (takeKey cs).1), (takeKey cs).2)

/-- Match one literal character. -/
def expectChar (c : Char) : List Char → Option (List Char)
  | [] => none
  | x :: xs => if x == c then some xs else none

/-- Match one character of the class `["']`. -/
def expectQuote : List Char → Option (List Char)
  | [] => none
  | x :: xs => if isQuote x then some xs else none

/-- Attempt to match `\.tr\s*\(\s*["']([^"']+)["']\s*\)` anchored at the
start of `s`.  On success, return the group-1 capture and the input that
remains after the whole match. -/
def trMatchAt (s : List Char) : Option (List Char × List Char) :=
  (expectChar '.' s).bind fun s1 =>
  (expectChar 't' s1).bind fun s2 =>
  (expectChar 'r' s2).bind fun s3 =>
  (expectChar '(' (dropWs s3)).bind fun s4 =>
  (expectQuote (dropWs s4)).bind fun s5 =>
  if (takeKey s5).1.isEmpty then none else
  (expectQuote (takeKey s5).2).bind fun s6 =>
  (expectChar ')' (dropWs s6)).bind fun s7 =>
  some ((takeKey s5).1, s7)

theorem dropWs_length (s : List Char) : (dropWs s).length ≤ s.length := by
  induction s with
  | nil => simp [dropWs]
  | cons c cs ih =>
    simp only [dropWs]
    split
    · exact Nat.le_succ_of_le ih
    · exact Nat.le_refl _

theorem takeKey_snd_length (s : List Char) : (takeKey s).2.length ≤ s.length := by
  induction s with
  | nil => simp [takeKey]
  | cons c cs ih =>
    simp only [takeKey]
    split
    · exact Nat.le_refl _
    · exact Nat.le_succ_of_le ih

theorem expectChar_length {c : Char} {s r : List Char}
    (h : expectChar c s = some r) : r.length < s.length := by
  cases s with
  | nil => simp [expectChar] at h
  | cons x xs =>
    simp only [expectChar] at h
    split at h
    · cases h; exact Nat.lt_succ_self _
    · cases h

theorem expectQuote_length {s r : List Char}
    (h : expectQuote s = some r) : r.length < s.length := by
  cases s with
  | nil => simp [expectQuote] at h
  | cons x xs =>
    simp only [expectQuote] at h
    split at h
    · cases h; exact Nat.lt_succ_self _
    · cases h

theorem trMatchAt_length {s : List Char} {kr : List Char × List Char}
    (h : trMatchAt s = some kr) : kr.2.length < s.length := by
  simp only [trMatchAt, Option.bind_eq_some] at h
  obtain ⟨s1, h1, s2, h2, s3, h3, s4, h4, s5, h5, h⟩ := h
  split at h
  · cases h
  · simp only [Option.bind_eq_some] at h
    obtain ⟨s6, h6, s7, h7, h⟩ := h
    cases h
    show s7.length < s.length
    have l7 := expectChar_length h7
    have l6 := expectQuote_length h6
    have lk := takeKey_snd_length s5
    have l5 := expectQuote_length h5
    have l4 := expectChar_length h4
    have l3 := expectChar_length h3
    have l2 := expectChar_length h2
    have l1 := expectChar_length h1
    have d6 := dropWs_length s6
    have d4 := dropWs_length s4
    have d3 := dropWs_length s3
    omega

/-- The scan loop of `re.findall`, structurally recursive on a fuel bound:
try the pattern at every position, left to right; on a match, record the
capture and resume after the match (matches never overlap and are never
empty); on failure, advance one character.  Every step strictly shortens
the remaining input, so any fuel above the input length is enough
(`scanTr_fuel_irrelevant`). -/
def scanTr : Nat → List Char → List (List Char)
  | 0, _ => []
  | fuel + 1, s =>
    match trMatchAt s with
    | some kr => kr.1 :: scanTr fuel kr.2
    | none =>
      match s with
      | [] => []
      | _ :: cs => scanTr fuel cs

/-- `pattern.findall` over a character list: the scan loop with enough fuel. -/
def findTrKeys (s : List Char) : List (List Char) := scanTr (s.length + 1) s

theorem scanTr_fuel_irrelevant (fuel : Nat) : ∀ (fuel' : Nat) (s : List Char),
    s.length < fuel → s.length < fuel' → scanTr fuel s = scanTr fuel' s := by
  induction fuel with
  | zero => intro fuel' s h _; omega
  | succ f ih =>
    intro fuel' s h h'
    cases fuel' with
    | zero => omega
    | succ f' =>
      cases hm : trMatchAt s with
      | some kr =>
        have := trMatchAt_length hm
        simp only [scanTr, hm]
        rw [ih f' kr.2 (by omega) (by omega)]
      | none =>
        cases s with
        | nil => rfl
        | cons c cs =>
          simp only [List.length_cons] at h h'
          simp only [scanTr, hm]
          rw [ih f' cs (by omega) (by omega)]

/-- `pattern.findall(content)` from `find_tr_keys`: the group-1 captures of
all matches, as strings, in match order. -/
def findall (content : String) : List String :=
  (findTrKeys content.toList).map (fun l => String.mk l)

deriving instance DecidableEq for Except

/-- Python `str.endswith`: suffix test on the character sequence. -/
def endsWithStr (s suffix : String) : Bool := suffix.toList.isSuffixOf s.toList

/-- A source file seen by `os.walk`: its path and the result of
`open(path).read()` — the content on success, the exception message on
failure. -/
structure SrcFile where
  path : String
  content : Except String String
deriving DecidableEq

/-- Whether reading the file succeeds. -/
def readOk (f : SrcFile) : Bool :=
  match f.content with
  | Except.ok _ => true
  | Except.error _ => false

/-- The keys one walked file contributes to the set in `find_tr_keys`:
nothing unless the name ends in `.rs`; for a readable `.rs` file, all
captures of the pattern in its text; for an unreadable one, nothing. -/
def fileKeys (f : SrcFile) : Finset String :=
  if endsWithStr f.path ".rs" then
    match f.content with
    | Except.ok c => (findall c).toFinset
    | Except.error _ => (∅ : Finset String)
  else ∅

/-- The error lines one walked file makes `find_tr_keys` print: exactly one
line for an unreadable `.rs` file, none otherwise. -/
def fileErrs (f : SrcFile) : List String :=
  if endsWithStr f.path ".rs" then
    match f.content with
    | Except.ok _ => []
    | Except.error e => ["Error reading " ++ f.path ++ ": " ++ e]
  else []

/-- `find_tr_keys(directory)`: fold over the walked files, accumulating the
key set (`keys.add(m)`) and the printed error lines.  The imperative
left-to-right set accumulation is rendered as a union per file, which
builds the same set. -/
def find_tr_keys : List SrcFile → Finset String × List String
  | [] => (∅, [])
  | f :: fs => (fileKeys f ∪ (find_tr_keys fs).1, fileErrs f ++ (find_tr_keys fs).2)

/-- A localization file from the language directory: its name and the
result of `json.load(open(path))` — the top-level keys of the JSON object
on success, the exception message if reading or parsing fails. -/
structure LangFile where
  name : String
  parsed : Except String (List String)
deriving DecidableEq

/-- Code-point comparison of character lists, the order Python's `sorted`
uses on strings: lexicographic, by code point, shorter prefixes first. -/
def charListLe : List Char → List Char → Bool
  | [], _ => true
  | _ :: _, [] => false
  | a :: as, b :: bs =>
    if a.toNat < b.toNat then true
    else if b.toNat < a.toNat then false
    else charListLe as bs

/-- Python string comparison `a <= b`. -/
def strLe (a b : String) : Bool := charListLe a.toList b.toList

/-- `strLe` as a relation. -/
def pyLe (a b : String) : Prop := strLe a b = true

instance : DecidableRel pyLe := fun a b => inferInstanceAs (Decidable (strLe a b = true))

theorem char_toNat_inj {a b : Char} (h : a.toNat = b.toNat) : a = b := by
  apply Char.ext
  exact congrArg UInt32.mk (BitVec.eq_of_toNat_eq h)

theorem charListLe_cons (a b : Char) (as bs : List Char) :
    charListLe (a :: as) (b :: bs) =
      if a.toNat < b.toNat then true
      else if b.toNat < a.toNat then false
      else charListLe as bs := rfl

theorem charListLe_total (a b : List Char) : charListLe a b = true ∨ charListLe b a = true := by
  induction a generalizing b with
  | nil => left; simp [charListLe]
  | cons x xs ih =>
    cases b with
    | nil => right; simp [charListLe]
    | cons y ys =>
      rw [charListLe_cons, charListLe_cons]
      rcases Nat.lt_trichotomy x.toNat y.toNat with h | h | h
      · left; simp [h]
      · rcases ih ys with h' | h' <;> [left; right] <;> simp [h, h']
      · right; simp [h, Nat.lt_asymm h]

theorem charListLe_antisymm {a b : List Char} (h1 : charListLe a b = true)
    (h2 : charListLe b a = true) : a = b := by
  induction a generalizing b with
  | nil =>
    cases b with
    | nil => rfl
    | cons y ys => simp [charListLe] at h2
  | cons x xs ih =>
    cases b with
    | nil => simp [charListLe] at h1
    | cons y ys =>
      rw [charListLe_cons] at h1 h2
      split_ifs at h1 h2 <;> first
        | exact Bool.noConfusion h1
        | exact Bool.noConfusion h2
        | (exfalso; omega)
        | (have hxy : x = y := char_toNat_inj (by omega)
           rw [hxy, ih h1 h2])

theorem charListLe_trans {a b c : List Char} (h1 : charListLe a b = true)
    (h2 : charListLe b c = true) : charListLe a c = true := by
  induction a generalizing b c with
  | nil => simp [charListLe]
  | cons x xs ih =>
    cases b with
    | nil => simp [charListLe] at h1
    | cons y ys =>
      cases c with
      | nil => simp [charListLe] at h2
      | cons z zs =>
        rw [charListLe_cons] at h1 h2 ⊢
        split_ifs at h1 h2 ⊢ <;> first
          | rfl
          | exact Bool.noConfusion h1
          | exact Bool.noConfusion h2
          | exact ih h1 h2
          | (exfalso; omega)

instance : IsTotal String pyLe := ⟨fun a b => charListLe_total a.toList b.toList⟩

theorem string_toList_inj {a b : String} (h : a.toList = b.toList) : a = b := by
  cases a
  cases b
  exact congrArg String.mk h

instance : IsAntisymm String pyLe :=
  ⟨fun _ _ h1 h2 => string_toList_inj (charListLe_antisymm h1 h2)⟩

instance : IsTrans String pyLe := ⟨fun _ _ _ h1 h2 => charListLe_trans h1 h2⟩

/-- Sort a multiset of strings in Python's order, by insertion sort; the
result does not depend on the representing list. -/
def sortStrM (s : Multiset String) : List String :=
  Quot.liftOn s (fun l => l.insertionSort pyLe) fun _ _ h =>
    List.eq_of_perm_of_sorted
      (((List.perm_insertionSort pyLe _).trans h).trans (List.perm_insertionSort pyLe _).symm)
      (List.sorted_insertionSort pyLe _)
      (List.sorted_insertionSort pyLe _)

/-- Python `sorted(s)` for a set of strings: its elements in increasing
code-point-lexicographic order. -/
def sortedKeys (s : Finset String) : List String := sortStrM s.val

/-- Line 42 of the script: `missing = used_keys - defined_keys`. -/
def missingOf (used defined : Finset String) : Finset String := used \ defined

/-- Line 43 of the script: `extra = defined_keys - used_keys`. -/
def extraOf (used defined : Finset String) : Finset String := defined \ used

/-- The body of the per-file loop in `check_langs`: the lines printed for
one localization file.  The `Checking:` header is printed before the `try`;
a read/parse failure prints one error line; otherwise the missing and
orphan lists are printed sorted, or a confirmation when empty. -/
def reportFile (used : Finset String) (lf : LangFile) : List String :=
  ("\nChecking: " ++ lf.name) ::
  match lf.parsed with
  | Except.error e => ["Error checking " ++ lf.name ++ ": " ++ e]
  | Except.ok ks =>
    (if missingOf used ks.toFinset ≠ ∅ then
      "  ❌ Missing translations (Used in code but NOT in JSON):" ::
        (sortedKeys (missingOf used ks.toFinset)).map (fun k => "    - " ++ k)
     else ["  ✅ No missing keys."]) ++
    (if extraOf used ks.toFinset ≠ ∅ then
      "  ⚠️ Orphan keys (In JSON but NOT used in code):" ::
        (sortedKeys (extraOf used ks.toFinset)).map (fun k => "    - " ++ k)
     else ["  ✅ No orphan keys."])

/-- One iteration of the `for lang_file in lang_files` loop, threading the
loop state explicitly: the used-key set (which the body only reads) and the
output accumulated so far. -/
def reportStep (st : Finset String × List String) (lf : LangFile) :
    Finset String × List String :=
  (st.1, st.2 ++ reportFile st.1 lf)

/-- The whole per-file loop of `check_langs`, started from the extracted
used-key set and empty output. -/
def reportLoop (used : Finset String) (lfs : List LangFile) :
    Finset String × List String :=
  lfs.foldl reportStep (used, [])

/-- `check_langs(src_dir, lang_dir)`: extract the used keys (printing any
read errors), print the header with the key count, then run the loop over
the `.json` entries of the language directory. -/
def check_langs (srcFiles : List SrcFile) (langFiles : List LangFile) : List String :=
  (find_tr_keys srcFiles).2 ++
  ["--- [Found " ++ toString (find_tr_keys srcFiles).1.card ++
    " unique keys in Rust source code] ---"] ++
  (reportLoop (find_tr_keys srcFiles).1
    (langFiles.filter (fun f => endsWithStr f.name ".json"))).2

/-- The message printed by `__main__` when an input directory is missing. -/
def dirErrMsg : String :=
  "Error: Could not find 'src' or 'assets/lang' directory from current path."

/-- The `__main__` block: given whether `os.path.exists` holds for the two
fixed paths, and the directory contents, return the process exit code and
the printed output. -/
def main_run (srcExists langsExists : Bool) (srcFiles : List SrcFile)
    (langFiles : List LangFile) : Nat × List String :=
  if !srcExists || !langsExists then (1, [dirErrMsg])
  else (0, check_langs srcFiles langFiles)

theorem fileKeys_mem (f : SrcFile) (k : String) :
    k ∈ fileKeys f ↔
      (endsWithStr f.path ".rs" = true ∧ ∃ c, f.content = Except.ok c ∧ k ∈ findall c) := by
  unfold fileKeys
  split
  · cases hc : f.content with
    | ok c => simp_all
    | error e => simp_all
  · simp_all

theorem find_tr_keys_mem (files : List SrcFile) (k : String) :
    k ∈ (find_tr_keys files).1 ↔
      ∃ f ∈ files, endsWithStr f.path ".rs" = true ∧
        ∃ c, f.content = Except.ok c ∧ k ∈ findall c := by
  induction files with
  | nil => simp [find_tr_keys]
  | cons f fs ih =>
    simp only [find_tr_keys, Finset.mem_union, List.mem_cons]
    rw [ih, fileKeys_mem]
    constructor
    · rintro (h | ⟨g, hg, h⟩)
      · exact ⟨f, Or.inl rfl, h⟩
      · exact ⟨g, Or.inr hg, h⟩
    · rintro ⟨g, (rfl | hg), h⟩
      · exact Or.inl h
      · exact Or.inr ⟨g, hg, h⟩

theorem fileKeys_of_error {f : SrcFile} {e : String}
    (h : f.content = Except.error e) : fileKeys f = ∅ := by
  unfold fileKeys
  split <;> simp [h]

theorem fileErrs_of_error {f : SrcFile} {e : String}
    (hrs : endsWithStr f.path ".rs" = true) (h : f.content = Except.error e) :
    fileErrs f = ["Error reading " ++ f.path ++ ": " ++ e] := by
  unfold fileErrs
  rw [if_pos hrs, h]

theorem errLine_mem (files : List SrcFile) (f : SrcFile) (e : String)
    (hf : f ∈ files) (hrs : endsWithStr f.path ".rs" = true)
    (he : f.content = Except.error e) :
    ("Error reading " ++ f.path ++ ": " ++ e) ∈ (find_tr_keys files).2 := by
  induction files with
  | nil => cases hf
  | cons g fs ih =>
    simp only [find_tr_keys, List.mem_append]
    rcases List.mem_cons.mp hf with rfl | hg
    · left
      rw [fileErrs_of_error hrs he]
      exact List.mem_singleton.mpr rfl
    · right
      exact ih hg

theorem find_tr_keys_fst_filter (files : List SrcFile) :
    (find_tr_keys files).1 = (find_tr_keys (files.filter readOk)).1 := by
  induction files with
  | nil => rfl
  | cons f fs ih =>
    by_cases h : readOk f = true
    · rw [List.filter_cons_of_pos h]
      simp only [find_tr_keys]
      rw [ih]
    · rw [List.filter_cons_of_neg (by simpa using h)]
      have he : ∃ e, f.content = Except.error e := by
        unfold readOk at h
        cases hc : f.content with
        | ok c => rw [hc] at h; simp at h
        | error e => exact ⟨e, rfl⟩
      obtain ⟨e, he⟩ := he
      simp only [find_tr_keys]
      rw [fileKeys_of_error he, ih, Finset.empty_union]

theorem find_tr_keys_fst_perm {s s' : List SrcFile} (h : s.Perm s') :
    (find_tr_keys s).1 = (find_tr_keys s').1 := by
  induction h with
  | nil => rfl
  | cons x _ ih => simp only [find_tr_keys]; rw [ih]
  | swap x y l =>
    simp only [find_tr_keys]
    rw [Finset.union_left_comm]
  | trans _ _ ih1 ih2 => exact ih1.trans ih2

theorem reportLoop_spec (u : Finset String) (o : List String) (lfs : List LangFile) :
    lfs.foldl reportStep (u, o) = (u, o ++ (lfs.map (reportFile u)).flatten) := by
  induction lfs generalizing o with
  | nil => simp
  | cons lf ls ih =>
    rw [List.foldl_cons]
    show List.foldl reportStep (u, o ++ reportFile u lf) ls = _
    rw [ih]
    simp

theorem quote_not_space {c : Char} (h : isQuote c = true) : pyIsSpace c = false := by
  unfold isQuote at h
  rcases Bool.or_eq_true_iff.mp h with h' | h' <;>
    rw [show c = _ from eq_of_beq h'] <;> rfl

theorem dropWs_cons (c : Char) (l : List Char) :
    dropWs (c :: l) = if pyIsSpace c then dropWs l else c :: l := rfl

theorem dropWs_cons_of_not_space {c : Char} (l : List Char) (h : pyIsSpace c = false) :
    dropWs (c :: l) = c :: l := by
  rw [dropWs_cons, h]
  simp

theorem dropWs_append_space {ws : List Char} (l : List Char)
    (h : ∀ c ∈ ws, pyIsSpace c = true) : dropWs (ws ++ l) = dropWs l := by
  induction ws with
  | nil => rfl
  | cons c cs ih =>
    have hc : pyIsSpace c = true := h c (List.mem_cons_self c cs)
    show dropWs (c :: (cs ++ l)) = dropWs l
    rw [dropWs_cons, hc]
    simp only [if_true]
    exact ih (fun x hx => h x (List.mem_cons_of_mem c hx))

theorem expectQuote_of_quote {q : Char} (l : List Char) (h : isQuote q = true) :
    expectQuote (q :: l) = some l := by
  show (if isQuote q = true then some l else none) = some l
  rw [h]
  simp

theorem takeKey_no_quote {k : List Char} {q : Char} (r : List Char)
    (hk : ∀ c ∈ k, isQuote c = false) (hq : isQuote q = true) :
    takeKey (k ++ q :: r) = (k, q :: r) := by
  induction k with
  | nil =>
    show takeKey (q :: r) = ([], q :: r)
    unfold takeKey
    rw [hq]
    simp
  | cons c cs ih =>
    have hc : isQuote c = false := hk c (List.mem_cons_self c cs)
    show takeKey (c :: (cs ++ q :: r)) = (c :: cs, q :: r)
    unfold takeKey
    rw [hc]
    simp only [Bool.false_eq_true, if_false]
    rw [ih (fun x hx => hk x (List.mem_cons_of_mem c hx))]

/-- A `.tr` call whose quoted first argument is followed by a comma (that
is, by further arguments) is rejected by the pattern: after the closing
quote the pattern insists on `\s*\)`, and a comma matches neither. -/
theorem trMatchAt_trailing_args (q1 q2 : Char) (k ws rest : List Char)
    (hq1 : isQuote q1 = true) (hq2 : isQuote q2 = true) (hk : k ≠ [])
    (hkq : ∀ c ∈ k, isQuote c = false) (hws : ∀ c ∈ ws, pyIsSpace c = true) :
    trMatchAt ('.' :: 't' :: 'r' :: '(' :: q1 :: (k ++ q2 :: (ws ++ ',' :: rest))) = none := by
  unfold trMatchAt
  rw [show expectChar '.' ('.' :: 't' :: 'r' :: '(' :: q1 :: (k ++ q2 :: (ws ++ ',' :: rest)))
        = some ('t' :: 'r' :: '(' :: q1 :: (k ++ q2 :: (ws ++ ',' :: rest))) from rfl]
  rw [Option.some_bind]
  rw [show expectChar 't' ('t' :: 'r' :: '(' :: q1 :: (k ++ q2 :: (ws ++ ',' :: rest)))
        = some ('r' :: '(' :: q1 :: (k ++ q2 :: (ws ++ ',' :: rest))) from rfl]
  rw [Option.some_bind]
  rw [show expectChar 'r' ('r' :: '(' :: q1 :: (k ++ q2 :: (ws ++ ',' :: rest)))
        = some ('(' :: q1 :: (k ++ q2 :: (ws ++ ',' :: rest))) from rfl]
  rw [Option.some_bind]
  rw [show dropWs ('(' :: q1 :: (k ++ q2 :: (ws ++ ',' :: rest)))
        = '(' :: q1 :: (k ++ q2 :: (ws ++ ',' :: rest)) from rfl]
  rw [show expectChar '(' ('(' :: q1 :: (k ++ q2 :: (ws ++ ',' :: rest)))
        = some (q1 :: (k ++ q2 :: (ws ++ ',' :: rest))) from rfl]
  rw [Option.some_bind]
  rw [dropWs_cons_of_not_space _ (quote_not_space hq1)]
  rw [expectQuote_of_quote _ hq1]
  rw [Option.some_bind]
  rw [takeKey_no_quote _ hkq hq2]
  simp only [List.isEmpty_eq_true]
  rw [if_neg hk]
  rw [expectQuote_of_quote _ hq2]
  rw [Option.some_bind]
  rw [dropWs_append_space _ hws]
  rw [show dropWs (',' :: rest) = ',' :: rest from rfl]
  rw [show expectChar ')' (',' :: rest) = none from rfl]
  rfl

/-- C1: the used-key set returned by `find_tr_keys` contains exactly the
distinct group-1 captures of the pattern over the text of every readable
file whose name ends in `.rs`, and nothing else; being a set, duplicate
captures collapse into one element. -/
theorem claim_C1 (files : List SrcFile) (k : String) :
    k ∈ (find_tr_keys files).1 ↔
      ∃ f ∈ files, endsWithStr f.path ".rs" = true ∧
        ∃ c, f.content = Except.ok c ∧ k ∈ findall c :=
  find_tr_keys_mem files k

/-- C2 counterexample: in `.tr("hello", ctx)` the quoted first argument is
followed by a trailing argument, and the extractor extracts nothing from
the file — in particular `hello` is not in the used-key set, refuting the
claim that the first literal is extracted. -/
theorem claim_C2_counterexample :
    (find_tr_keys [⟨"lib.rs", Except.ok ".tr(\"hello\", ctx)"⟩]).1 = ∅ ∧
    "hello" ∉ (find_tr_keys [⟨"lib.rs", Except.ok ".tr(\"hello\", ctx)"⟩]).1 := by
  decide

/-- C2 (amended): a `.tr` call whose quoted first argument is followed
(after optional whitespace) by a comma introducing trailing arguments is
not matched by the pattern at all, so its first quoted literal is not
extracted from that call site. -/
theorem claim_C2 (q1 q2 : Char) (k ws rest : List Char)
    (hq1 : isQuote q1 = true) (hq2 : isQuote q2 = true) (hk : k ≠ [])
    (hkq : ∀ c ∈ k, isQuote c = false) (hws : ∀ c ∈ ws, pyIsSpace c = true) :
    trMatchAt ('.' :: 't' :: 'r' :: '(' :: q1 :: (k ++ q2 :: (ws ++ ',' :: rest))) = none :=
  trMatchAt_trailing_args q1 q2 k ws rest hq1 hq2 hk hkq hws

/-- C2 witness: the amended claim at `.tr("hello", ctx)`. -/
theorem claim_C2_witness :
    trMatchAt ('.' :: 't' :: 'r' :: '(' :: '"' ::
      ("hello".toList ++ '"' :: ([] ++ ',' :: " ctx)".toList))) = none :=
  claim_C2 '"' '"' "hello".toList [] " ctx)".toList (by decide) (by decide)
    (by decide) (by decide) (by decide)

/-- C3: for a successfully parsed localization file, the reporter's
`missing = used - defined` and `extra = defined - used` satisfy the
recovery identities `used = (used ∩ defined) ∪ missing` and
`defined = (used ∩ defined) ∪ extra`. -/
theorem claim_C3 (used : Finset String) (lf : LangFile) (ks : List String)
    (h : lf.parsed = Except.ok ks) :
    used = (used ∩ ks.toFinset) ∪ missingOf used ks.toFinset ∧
    ks.toFinset = (used ∩ ks.toFinset) ∪ extraOf used ks.toFinset := by
  constructor <;> (ext x; simp [missingOf, extraOf]; tauto)

/-- C3 witness: the spec's scenario, used = `{hello.world, goodbye}` against
defined = `{hello.world, extra.key}`. -/
theorem claim_C3_witness :
    ({"hello.world", "goodbye"} : Finset String) =
      (({"hello.world", "goodbye"} : Finset String) ∩
          (["hello.world", "extra.key"] : List String).toFinset) ∪
        missingOf {"hello.world", "goodbye"}
          (["hello.world", "extra.key"] : List String).toFinset ∧
    (["hello.world", "extra.key"] : List String).toFinset =
      (({"hello.world", "goodbye"} : Finset String) ∩
          (["hello.world", "extra.key"] : List String).toFinset) ∪
        extraOf {"hello.world", "goodbye"}
          (["hello.world", "extra.key"] : List String).toFinset :=
  claim_C3 {"hello.world", "goodbye"} ⟨"en.json", Except.ok ["hello.world", "extra.key"]⟩
    ["hello.world", "extra.key"] rfl

/-- C4: a localization file that fails to read or parse yields exactly its
`Checking:` header and one error line naming it, no missing/orphan report;
the files before and after it are reported exactly as on their own, and the
used-key set is unchanged by the whole loop. -/
theorem claim_C4 (used : Finset String) (pre post : List LangFile) (bad : LangFile)
    (e : String) (he : bad.parsed = Except.error e) :
    (reportLoop used (pre ++ bad :: post)).2 =
      (reportLoop used pre).2 ++
        (("\nChecking: " ++ bad.name) :: ["Error checking " ++ bad.name ++ ": " ++ e]) ++
        (reportLoop used post).2 ∧
    (reportLoop used (pre ++ bad :: post)).1 = used := by
  unfold reportLoop
  rw [reportLoop_spec, reportLoop_spec, reportLoop_spec]
  refine ⟨?_, rfl⟩
  simp [reportFile, he]

/-- C4 witness: a malformed `de.json` between two well-formed files. -/
theorem claim_C4_witness :
    (reportLoop {"a"} ([⟨"cs.json", Except.ok ["a"]⟩] ++
        ⟨"de.json", Except.error "boom"⟩ :: [⟨"en.json", Except.ok ["a"]⟩])).2 =
      (reportLoop {"a"} [⟨"cs.json", Except.ok ["a"]⟩]).2 ++
        (("\nChecking: " ++ "de.json") :: ["Error checking " ++ "de.json" ++ ": " ++ "boom"]) ++
        (reportLoop {"a"} [⟨"en.json", Except.ok ["a"]⟩]).2 ∧
    (reportLoop {"a"} ([⟨"cs.json", Except.ok ["a"]⟩] ++
        ⟨"de.json", Except.error "boom"⟩ :: [⟨"en.json", Except.ok ["a"]⟩])).1 = {"a"} :=
  claim_C4 {"a"} [⟨"cs.json", Except.ok ["a"]⟩] [⟨"en.json", Except.ok ["a"]⟩]
    ⟨"de.json", Except.error "boom"⟩ "boom" rfl

/-- C5: an unreadable `.rs` source file contributes exactly one error line
naming its path to the extractor's output, and the extracted key set equals
the key set of the readable files alone — no read failure aborts
extraction. -/
theorem claim_C5 (files : List SrcFile) (f : SrcFile) (e : String)
    (hf : f ∈ files) (hrs : endsWithStr f.path ".rs" = true)
    (he : f.content = Except.error e) :
    ("Error reading " ++ f.path ++ ": " ++ e) ∈ (find_tr_keys files).2 ∧
    (find_tr_keys files).1 = (find_tr_keys (files.filter readOk)).1 :=
  ⟨errLine_mem files f e hf hrs he, find_tr_keys_fst_filter files⟩

/-- C5 witness: one unreadable and one readable source file. -/
theorem claim_C5_witness :
    ("Error reading " ++ "bad.rs" ++ ": " ++ "boom") ∈
      (find_tr_keys [⟨"bad.rs", Except.error "boom"⟩, ⟨"ok.rs", Except.ok ".tr(\"a\")"⟩]).2 ∧
    (find_tr_keys [⟨"bad.rs", Except.error "boom"⟩, ⟨"ok.rs", Except.ok ".tr(\"a\")"⟩]).1 =
      (find_tr_keys ([⟨"bad.rs", Except.error "boom"⟩,
        ⟨"ok.rs", Except.ok ".tr(\"a\")"⟩].filter readOk)).1 :=
  claim_C5 [⟨"bad.rs", Except.error "boom"⟩, ⟨"ok.rs", Except.ok ".tr(\"a\")"⟩]
    ⟨"bad.rs", Except.error "boom"⟩ "boom" (by decide) (by decide) rfl

/-- C6: the process exits 1, printing only the directory error message,
exactly when one of the two input directories is missing; otherwise it
exits 0 with the report of `check_langs`, regardless of findings. -/
theorem claim_C6 (a b : Bool) (s : List SrcFile) (l : List LangFile) :
    ((main_run a b s l).1 = 1 ↔ (a = false ∨ b = false)) ∧
    ((main_run a b s l).1 = 0 ↔ (a = true ∧ b = true)) ∧
    ((main_run a b s l).1 = 1 → (main_run a b s l).2 = [dirErrMsg]) ∧
    ((main_run a b s l).1 = 0 → (main_run a b s l).2 = check_langs s l) := by
  cases a <;> cases b <;> simp [main_run]

/-- C7: the used-key set component of the loop state equals the initial
used-key set after every prefix of the localization files, and every file's
report is computed from that same set — the loop never mutates it. -/
theorem claim_C7 (used : Finset String) (lfs : List LangFile) :
    (∀ n : Nat, ((lfs.take n).foldl reportStep (used, ([] : List String))).1 = used) ∧
    reportLoop used lfs = (used, (lfs.map (reportFile used)).flatten) := by
  constructor
  · intro n
    rw [reportLoop_spec]
  · unfold reportLoop
    rw [reportLoop_spec]
    simp

/-- C8: when no eligible readable file contains a pattern match, the
extracted key set is empty, so every parsed localization file has no
missing keys and all its defined keys are orphans. -/
theorem claim_C8 (srcFiles : List SrcFile)
    (h : ∀ f ∈ srcFiles, endsWithStr f.path ".rs" = true →
         ∀ c, f.content = Except.ok c → findall c = []) :
    (find_tr_keys srcFiles).1 = ∅ ∧
    ∀ (lf : LangFile) (ks : List String), lf.parsed = Except.ok ks →
      missingOf (find_tr_keys srcFiles).1 ks.toFinset = ∅ ∧
      extraOf (find_tr_keys srcFiles).1 ks.toFinset = ks.toFinset := by
  have h0 : (find_tr_keys srcFiles).1 = ∅ := by
    rw [Finset.eq_empty_iff_forall_not_mem]
    intro k hk
    obtain ⟨f, hf, hrs, c, hc, hkc⟩ := (find_tr_keys_mem srcFiles k).mp hk
    rw [h f hf hrs c hc] at hkc
    exact (List.not_mem_nil k) hkc
  refine ⟨h0, fun lf ks _ => ?_⟩
  rw [h0]
  exact ⟨by simp [missingOf], by simp [extraOf]⟩

/-- C8 witness: a source tree with one `.rs` file bearing no `.tr` call,
compared against a localization file defining `a`. -/
theorem claim_C8_witness :
    (find_tr_keys [⟨"empty.rs", Except.ok "fn main()"⟩]).1 = ∅ ∧
    missingOf (find_tr_keys [⟨"empty.rs", Except.ok "fn main()"⟩]).1
      (["a"] : List String).toFinset = ∅ ∧
    extraOf (find_tr_keys [⟨"empty.rs", Except.ok "fn main()"⟩]).1
      (["a"] : List String).toFinset = (["a"] : List String).toFinset := by
  have hc8 := claim_C8 [⟨"empty.rs", Except.ok "fn main()"⟩] (fun f hf hrs c hc => by
    rcases List.mem_cons.mp hf with rfl | h0
    · injection hc with h
      rw [← h]
      decide
    · cases h0)
  exact ⟨hc8.1, (hc8.2 ⟨"de.json", Except.ok ["a"]⟩ ["a"] rfl).1,
    (hc8.2 ⟨"de.json", Except.ok ["a"]⟩ ["a"] rfl).2⟩

/-- C9: the tool is deterministic on unchanged inputs — the extracted key
set is invariant under any re-enumeration (permutation) of the walked
source files, and whenever the extraction error lines also agree, the whole
report text is identical. -/
theorem claim_C9 (s s' : List SrcFile) (l : List LangFile) (hs : s.Perm s') :
    (find_tr_keys s).1 = (find_tr_keys s').1 ∧
    ((find_tr_keys s).2 = (find_tr_keys s').2 →
      check_langs s l = check_langs s' l) := by
  have h1 := find_tr_keys_fst_perm hs
  refine ⟨h1, fun h2 => ?_⟩
  unfold check_langs
  rw [h1, h2]

/-- C9 witness: two readable source files walked in either order produce
the identical report. -/
theorem claim_C9_witness :
    check_langs [⟨"a.rs", Except.ok ".tr(\"k1\")"⟩, ⟨"b.rs", Except.ok ".tr(\"k2\")"⟩]
        [⟨"de.json", Except.ok ["k1"]⟩] =
      check_langs [⟨"b.rs", Except.ok ".tr(\"k2\")"⟩, ⟨"a.rs", Except.ok ".tr(\"k1\")"⟩]
        [⟨"de.json", Except.ok ["k1"]⟩] :=
  (claim_C9 [⟨"a.rs", Except.ok ".tr(\"k1\")"⟩, ⟨"b.rs", Except.ok ".tr(\"k2\")"⟩]
    [⟨"b.rs", Except.ok ".tr(\"k2\")"⟩, ⟨"a.rs", Except.ok ".tr(\"k1\")"⟩]
    [⟨"de.json", Except.ok ["k1"]⟩] (by decide)).2 (by decide)

/-- C10: the two quote classes of the pattern are matched independently, so
a call whose opening and closing quotes differ, `.tr("key')`, still matches
and `key` enters the used-key set. -/
theorem claim_C10 :
    (find_tr_keys [⟨"mixed.rs", Except.ok ".tr(\"key')"⟩]).1 = {"key"} := by
  decide

/-- Scenario from the spec: a plain call and a qualified call split across
lines both match, giving `hello.world` and `goodbye`. -/
theorem scenario_multiline :
    (find_tr_keys
      [⟨"ui.rs", Except.ok "widget.tr(\"hello.world\") other.tr(\n   'goodbye'\n)"⟩]).1 =
      {"hello.world", "goodbye"} := by
  decide

/-- Scenario from the spec: the diff of `{hello.world, goodbye}` against a
file defining `hello.world` and `extra.key`. -/
theorem scenario_missing_extra :
    missingOf {"hello.world", "goodbye"}
        (["hello.world", "extra.key"] : List String).toFinset = {"goodbye"} ∧
    extraOf {"hello.world", "goodbye"}
        (["hello.world", "extra.key"] : List String).toFinset = {"extra.key"} := by
  decide
